import Mathlib

/-!
A verification development for the jsc command-line shell (jsc.cpp): a
shallow embedding of its command-line parser, source loader, batch
execution driver and file-interacting native functions, with theorems
about the behaviour of those components.

The scripting engine itself (parser, interpreter, collector) is an
external collaborator.  Its evaluate and checkSyntax entry points are
modelled as oracle functions supplied as parameters, because the
harness only observes whether an evaluation produced an exception
value.  The file system is modelled as a map from file names to an
optional byte list; none models a file that fopen cannot open.
-/

namespace Jsc

/-- The NUL byte written by fillBufferWithContentsOfFile as the C string
terminator of the loaded buffer. -/
def nullChar : Char := Char.ofNat 0

/-- Model of one uninitialized byte of a freshly grown WTF Vector of
char.  No observable read of the loader's result reaches such a byte. -/
def uninitByte : Char := Char.ofNat 170

/-- A script to run, exactly like struct Script in jsc.cpp: either a
file name (isFile true, from -f or a bare token) or inline source text
(isFile false, from -e). -/
structure Script where
  isFile : Bool
  argument : String
deriving DecidableEq

/-- The file system visible to the shell: the readable content of each
file name, or none when the file cannot be opened. -/
def FileSystem : Type := String → Option (List Char)

/-- One fread into the buffer: the received bytes overwrite the buffer
starting at offset i, everything else is unchanged. -/
def writeAt (buf : List Char) (i : Nat) (xs : List Char) : List Char :=
  buf.take i ++ xs ++ buf.drop (i + xs.length)

/-- Vector of char resize: a shrink keeps a prefix, a grow appends
default-constructed (uninitialized) bytes. -/
def resizeTo (buf : List Char) (n : Nat) : List Char :=
  buf.take n ++ List.replicate (n - buf.length) uninitByte

/-- The read loop of fillBufferWithContentsOfFile.  One recursion step
models one fread call: it requests bufferCapacity - bufferSize bytes,
receives min(requested, remaining) bytes at offset bufferSize, and the
buffer is doubled whenever it becomes full (guaranteeing space for the
trailing NUL); a short read is exactly the feof case and ends the loop.
fuel only bounds the recursion; remaining.length + 1 is always enough,
because every full read consumes at least one byte. -/
def readLoop : Nat → List Char → List Char → Nat → Nat → List Char × Nat × Nat
  | 0, _, buf, bufferSize, bufferCapacity => (buf, bufferSize, bufferCapacity)
  | fuel + 1, remaining, buf, bufferSize, bufferCapacity =>
    let req := bufferCapacity - bufferSize
    let got := min req remaining.length
    let buf1 := writeAt buf bufferSize (remaining.take got)
    if remaining.length < req then
      (buf1, bufferSize + got, bufferCapacity)
    else
      readLoop fuel (remaining.drop got) (resizeTo buf1 (bufferCapacity * 2))
        (bufferSize + got) (bufferCapacity * 2)

/-- fillBufferWithContentsOfFile: read the whole file into a growable
buffer (initial capacity 1024, doubling on exhaustion), NUL-terminate
it at index bufferSize, and when the first two bytes are a shebang
rewrite both to the slash character so the line parses as a comment.
The returned list is the meaningful prefix of the buffer, that is the
bytes the callers consume through buffer.data() as a C string, NUL
included; none is returned when the file cannot be opened. -/
def fillBufferWithContentsOfFile (fs : FileSystem) (fileName : String) :
    Option (List Char) :=
  match fs fileName with
  | none => none
  | some content =>
    let r := readLoop (content.length + 1) content (resizeTo [] 1024) 0 1024
    let buf1 := r.1.set r.2.1 nullChar
    let buf2 :=
      if buf1.getD 0 uninitByte = '#' ∧ buf1.getD 1 uninitByte = '!' then
        (buf1.set 0 '/').set 1 '/'
      else buf1
    some (buf2.take (r.2.1 + 1))

/-- jscSource consumes the buffer as a C string: everything up to the
first NUL byte. -/
def cString (buf : List Char) : List Char :=
  buf.takeWhile (fun c => c ≠ nullChar)

/-- What the harness reads out of an exception value thrown by the
engine: its stringified message, and its stack property when that is
neither undefined nor null. -/
structure ExnInfo where
  message : String
  stack : Option String
deriving DecidableEq

/-- The observable exception state of the global ExecState: the pending
exception, if any. -/
structure ExecState where
  pending : Option ExnInfo
deriving DecidableEq

/-- exec->clearException(): drop any pending exception. -/
def clearException (_ : ExecState) : ExecState := ⟨none⟩

/-- The engine's evaluate entry point, as observed by the harness.  The
oracle gives the outcome the engine produces for the i-th top-level
evaluation.  A stale pending exception on the ExecState makes the
evaluation fail immediately with that stale exception instead, which is
why the driver must clear the state between scripts; a thrown exception
is recorded as pending on the ExecState and reported to the caller. -/
def evaluate (oracle : Nat → Option ExnInfo) (i : Nat) (st : ExecState) :
    ExecState × Option ExnInfo :=
  match st.pending with
  | some e => (st, some e)
  | none =>
    match oracle i with
    | some e => (⟨some e⟩, some e)
    | none => (st, none)

/-- A line the batch driver prints to standard output while running
script i: the Exception line, the stack property line below it, or the
End line printed when dumping is enabled. -/
inductive OutLine where
  | exceptionLine (i : Nat) (message : String)
  | stackLine (i : Nat) (stack : String)
  | endLine (i : Nat)
deriving DecidableEq

/-- The script index an output line was printed for. -/
def OutLine.idx : OutLine → Nat
  | OutLine.exceptionLine i _ => i
  | OutLine.stackLine i _ => i
  | OutLine.endLine i => i

/-- The lines printed after evaluating script i, from the evaluation
exception out-parameter: on exception, the Exception line and the stack
property when present; otherwise the End line when dumping. -/
def outcomeLines (dump : Bool) (i : Nat) (exn : Option ExnInfo) : List OutLine :=
  match exn with
  | some e =>
    OutLine.exceptionLine i e.message ::
      (match e.stack with
       | some s => [OutLine.stackLine i s]
       | none => [])
  | none => if dump then [OutLine.endLine i] else []

/-- The observable trace of one driver run: which script indices were
evaluated (in order), which indices had a file load attempted, each
evaluated script's outcome (true means no exception), and the printed
lines. -/
structure DriverTrace where
  evaluated : List Nat
  loadAttempts : List Nat
  outcomes : List (Nat × Bool)
  output : List OutLine
deriving DecidableEq

/-- Concatenation of traces of consecutive driver iterations. -/
def DriverTrace.append (t1 t2 : DriverTrace) : DriverTrace :=
  ⟨t1.evaluated ++ t2.evaluated, t1.loadAttempts ++ t2.loadAttempts,
   t1.outcomes ++ t2.outcomes, t1.output ++ t2.output⟩

/-- The loop of runWithScripts over the remaining scripts, where i is
the index of the first of them and success the aggregate so far.  A
file-backed script is resolved through fillBufferWithContentsOfFile and
a load failure returns false at once; otherwise the script is evaluated,
success is and-ed with the absence of an exception, the result lines
are printed, and the pending exception state is cleared before the next
iteration. -/
def runWithScriptsAux (fs : FileSystem) (oracle : Nat → Option ExnInfo)
    (dump : Bool) : List Script → Nat → Bool → ExecState → Bool × DriverTrace
  | [], _, success, _ => (success, ⟨[], [], [], []⟩)
  | s :: rest, i, success, st =>
    match (if s.isFile then fillBufferWithContentsOfFile fs s.argument
           else some s.argument.data) with
    | none => (false, ⟨[], [i], [], []⟩)
    | some _ =>
      let er := evaluate oracle i st
      let success1 := success && er.2.isNone
      let lines := outcomeLines dump i er.2
      let r := runWithScriptsAux fs oracle dump rest (i + 1) success1 (clearException er.1)
      (r.1, DriverTrace.append ⟨[i], if s.isFile then [i] else [], [(i, er.2.isNone)], lines⟩ r.2)

/-- runWithScripts: run the parsed script list against the global
object, starting with index 0, aggregate success true and a clean
exception state. -/
def runWithScripts (fs : FileSystem) (oracle : Nat → Option ExnInfo)
    (scripts : List Script) (dump : Bool) : Bool × DriverTrace :=
  runWithScriptsAux fs oracle dump scripts 0 true ⟨none⟩

/-- Whether resolving a script's source text succeeds: inline payloads
always do, a file-backed script needs its file to be openable. -/
def scriptLoads (fs : FileSystem) (s : Script) : Bool :=
  !s.isFile || (fs s.argument).isSome

/-- Whether the script at position j of the list exists and fails to
load. -/
def loadFailsAt (fs : FileSystem) (scripts : List Script) (j : Nat) : Bool :=
  match scripts.get? j with
  | some s => !(scriptLoads fs s)
  | none => false

/-- The CommandLine configuration built by parseArguments, with the
same fields as the CommandLine class of jsc.cpp. -/
structure CommandLine where
  m_interactive : Bool
  m_dump : Bool
  m_exitCode : Bool
  m_scripts : List Script
  m_arguments : List String
  m_profile : Bool
  m_profilerOutput : Option String
deriving DecidableEq

/-- The CommandLine constructor's initial state: every flag false and
both lists empty. -/
def initialCommandLine : CommandLine := ⟨false, false, false, [], [], false, none⟩

/-- What the argument loop of CommandLine::parseArguments ends with:
a usage error (printUsageStatement(), process exits with failure), the
help path (printUsageStatement(true), process exits 0), or the parsed
state together with the dump-options flags and the tokens left after a
bare double dash. -/
inductive ParseResult where
  | usageFailure
  | usageHelp
  | finished (cfg : CommandLine) (needDump needExit : Bool) (trailing : List String)
deriving DecidableEq

/-- The token loop of CommandLine::parseArguments.  vm models
JSC::Options::setOption and receives the token with its first two
characters skipped, exactly as the source does.  A token recognized by
no flag and rejected by vm is appended as a file-backed script. -/
def parseLoop (vm : String → Bool) : List String → CommandLine → Bool → Bool → ParseResult
  | [], cfg, nd, ne => ParseResult.finished cfg nd ne []
  | arg :: rest, cfg, nd, ne =>
    if arg = "-f" then
      match rest with
      | [] => ParseResult.usageFailure
      | v :: rest2 =>
        parseLoop vm rest2 { cfg with m_scripts := cfg.m_scripts ++ [⟨true, v⟩] } nd ne
    else if arg = "-e" then
      match rest with
      | [] => ParseResult.usageFailure
      | v :: rest2 =>
        parseLoop vm rest2 { cfg with m_scripts := cfg.m_scripts ++ [⟨false, v⟩] } nd ne
    else if arg = "-i" then parseLoop vm rest { cfg with m_interactive := true } nd ne
    else if arg = "-d" then parseLoop vm rest { cfg with m_dump := true } nd ne
    else if arg = "-p" then
      match rest with
      | [] => ParseResult.usageFailure
      | v :: rest2 =>
        parseLoop vm rest2 { cfg with m_profile := true, m_profilerOutput := some v } nd ne
    else if arg = "-s" then parseLoop vm rest cfg nd ne
    else if arg = "-x" then parseLoop vm rest { cfg with m_exitCode := true } nd ne
    else if arg = "--" then ParseResult.finished cfg nd ne rest
    else if arg = "-h" ∨ arg = "--help" then ParseResult.usageHelp
    else if arg = "--options" then parseLoop vm rest cfg true true
    else if arg = "--dumpOptions" then parseLoop vm rest cfg true ne
    else if vm (arg.drop 2) then parseLoop vm rest cfg nd ne
    else parseLoop vm rest { cfg with m_scripts := cfg.m_scripts ++ [⟨true, arg⟩] } nd ne

/-- The four ways CommandLine::parseArguments can end for the process:
usage failure (exit with failure status), help (exit 0), the --options
path (dump options and exit 0 after parsing), or a configuration to
run. -/
inductive ParseOutcome where
  | usageFailure
  | usageHelp
  | optionsExit (cfg : CommandLine)
  | proceed (cfg : CommandLine)
deriving DecidableEq

/-- CommandLine::parseArguments: run the token loop, then force
interactive mode when no scripts were collected, record the trailing
tokens as the bound arguments, and exit 0 when --options was seen. -/
def parseArguments (vm : String → Bool) (args : List String) : ParseOutcome :=
  match parseLoop vm args initialCommandLine false false with
  | ParseResult.usageFailure => ParseOutcome.usageFailure
  | ParseResult.usageHelp => ParseOutcome.usageHelp
  | ParseResult.finished cfg _nd ne trailing =>
    let cfg1 := if cfg.m_scripts.isEmpty then { cfg with m_interactive := true } else cfg
    let cfg2 := { cfg1 with m_arguments := trailing }
    if ne then ParseOutcome.optionsExit cfg2 else ParseOutcome.proceed cfg2

/-- The engine values the file-interacting natives can hand back to
script code: undefined, a number of elapsed milliseconds, or an opaque
engine value produced by an evaluation. -/
inductive JSVal where
  | undefined
  | number (n : Int)
  | engineValue (tag : Nat)
deriving DecidableEq

/-- How a native host function call ends: a value returned to the
caller, an exception thrown on the caller's ExecState (catchable by the
evaluating script), an exception thrown on the throwaway global of the
run native while a value is returned to the caller, or process
termination. -/
inductive NativeOutcome where
  | value (v : JSVal)
  | thrownToCaller (message : String)
  | thrownOnFreshGlobal (message : String) (returned : JSVal)
  | exitProcess (code : Nat)
deriving DecidableEq

/-- The host error message created when a native cannot open a file. -/
def couldNotOpenMsg : String := "Could not open file."

/-- The run native: load the file, or throw a catchable host error on
the caller; evaluate it in a brand new throwaway global object, and
return the elapsed milliseconds, or throw the evaluation exception on
that fresh global while returning undefined.  evalFresh is the engine
oracle for the evaluation in the fresh global. -/
def functionRun (fs : FileSystem) (evalFresh : List Char → Option String)
    (elapsedMS : Int) (fileName : String) : NativeOutcome :=
  match fillBufferWithContentsOfFile fs fileName with
  | none => NativeOutcome.thrownToCaller couldNotOpenMsg
  | some script =>
    match evalFresh (cString script) with
    | some e => NativeOutcome.thrownOnFreshGlobal e JSVal.undefined
    | none => NativeOutcome.value (JSVal.number elapsedMS)

/-- The load native: load the file, or throw a catchable host error on
the caller; evaluate it in the caller's own global scope and return the
result value, rethrowing the evaluation exception to the caller. -/
def functionLoad (fs : FileSystem) (evalInCaller : List Char → JSVal × Option String)
    (fileName : String) : NativeOutcome :=
  match fillBufferWithContentsOfFile fs fileName with
  | none => NativeOutcome.thrownToCaller couldNotOpenMsg
  | some script =>
    match (evalInCaller (cString script)).2 with
    | some e => NativeOutcome.thrownToCaller e
    | none => NativeOutcome.value (evalInCaller (cString script)).1

/-- The checkSyntax native: load the file, or throw a catchable host
error on the caller; ask the engine to validate syntax only, without
executing anything, and return the elapsed milliseconds, throwing the
syntax exception to the caller when validation fails.  synCheck is the
engine's checkSyntax oracle: none means valid syntax. -/
def functionCheckSyntax (fs : FileSystem) (synCheck : List Char → Option String)
    (elapsedMS : Int) (fileName : String) : NativeOutcome :=
  match fillBufferWithContentsOfFile fs fileName with
  | none => NativeOutcome.thrownToCaller couldNotOpenMsg
  | some script =>
    match synCheck (cString script) with
    | some e => NativeOutcome.thrownToCaller e
    | none => NativeOutcome.value (JSVal.number elapsedMS)

/-- The quit native terminates the process with success status. -/
def functionQuit : NativeOutcome := NativeOutcome.exitProcess 0

/-- jscmain reduced to its observable outcome: the process exit code
and the indices of the scripts the batch driver evaluated.  A usage
violation exits with failure status, help and the --options path exit 0
straight from the parser without running anything, and otherwise the
batch driver runs and success is reduced to exit code 0, failure to
exit code 3.  Interactive mode, entered only after a fully successful
batch, does not change the exit code. -/
def jscmain (fs : FileSystem) (oracle : Nat → Option ExnInfo) (vm : String → Bool)
    (args : List String) : Nat × List Nat :=
  match parseArguments vm args with
  | ParseOutcome.usageFailure => (1, [])
  | ParseOutcome.usageHelp => (0, [])
  | ParseOutcome.optionsExit _ => (0, [])
  | ParseOutcome.proceed cfg =>
    let r := runWithScripts fs oracle cfg.m_scripts cfg.m_dump
    (if r.1 then 0 else 3, r.2.evaluated)

/-- The per-iteration trace the driver accumulates over a prefix of
scripts that all load, with i the index of the first of them.  Used to
state the driver lemmas in closed form. -/
def prefixTrace (oracle : Nat → Option ExnInfo) (dump : Bool) :
    Nat → List Script → DriverTrace
  | _, [] => ⟨[], [], [], []⟩
  | i, s :: rest =>
    DriverTrace.append
      ⟨[i], if s.isFile then [i] else [], [(i, (oracle i).isNone)],
        outcomeLines dump i (oracle i)⟩
      (prefixTrace oracle dump (i + 1) rest)

/-- Whether none of the n evaluations starting at index i throws. -/
def allNoThrow (oracle : Nat → Option ExnInfo) : Nat → Nat → Bool
  | _, 0 => true
  | i, n + 1 => (oracle i).isNone && allNoThrow oracle (i + 1) n

/-- A small concrete file system used to instantiate the theorems on
concrete inputs: two readable ordinary files, one readable shebang
file, and nothing else. -/
def fsExample : FileSystem := fun n =>
  if n = "a.js" then some ['1']
  else if n = "ok.js" then some ['1']
  else if n = "sh.js" then some ['#', '!', '\n', 'x']
  else none

/-- A file system where no file can be opened. -/
def fsEmpty : FileSystem := fun _ => none

/-- Concrete script list: a good file, a missing file, another file. -/
def scriptsABC : List Script := [⟨true, "a.js"⟩, ⟨true, "missing.js"⟩, ⟨true, "b.js"⟩]

/-- Concrete script list: an inline script that throws followed by an
inline script that does not. -/
def scriptsThrowOk : List Script := [⟨false, "throw 1"⟩, ⟨false, "1+1"⟩]

/-- Concrete engine oracle: the first evaluation throws, the rest do
not. -/
def oracleBoom : Nat → Option ExnInfo := fun j =>
  if j = 0 then some ⟨"boom", none⟩ else none

/-- Concrete engine oracle: no evaluation throws. -/
def oracleNone : Nat → Option ExnInfo := fun _ => none

/-- Concrete engine option system that recognizes nothing. -/
def vmReject : String → Bool := fun _ => false

/-- Concrete fresh-global evaluation stub: never throws. -/
def evalFreshNone : List Char → Option String := fun _ => none

/-- Concrete caller-scope evaluation stub: returns undefined, never
throws. -/
def evalCallerOk : List Char → JSVal × Option String := fun _ => (JSVal.undefined, none)

/-- Concrete syntax checking stub: everything is valid. -/
def synValid : List Char → Option String := fun _ => none

theorem writeAt_length (buf : List Char) (i : Nat) (xs : List Char)
    (h : i + xs.length ≤ buf.length) : (writeAt buf i xs).length = buf.length := by
  simp only [writeAt, List.length_append, List.length_take, List.length_drop]
  omega

theorem writeAt_take (buf : List Char) (i : Nat) (xs : List Char)
    (h : i ≤ buf.length) : (writeAt buf i xs).take (i + xs.length) = buf.take i ++ xs := by
  have h1 : (buf.take i ++ xs).length = i + xs.length := by
    simp only [List.length_append, List.length_take]
    omega
  rw [writeAt]
  exact List.take_left' h1

theorem resizeTo_length (buf : List Char) (n : Nat) (h : buf.length ≤ n) :
    (resizeTo buf n).length = n := by
  simp only [resizeTo, List.length_append, List.length_take, List.length_replicate]
  omega

theorem resizeTo_take_self (buf : List Char) (n : Nat) (h : buf.length ≤ n) :
    (resizeTo buf n).take buf.length = buf := by
  rw [resizeTo, List.take_of_length_le h, List.take_left]

theorem readLoop_spec : ∀ (fuel : Nat) (rem buf : List Char) (bs bc : Nat),
    bs < bc → buf.length = bc → rem.length < fuel →
    (readLoop fuel rem buf bs bc).2.1 = bs + rem.length ∧
    (readLoop fuel rem buf bs bc).2.1 < (readLoop fuel rem buf bs bc).2.2 ∧
    (readLoop fuel rem buf bs bc).1.length = (readLoop fuel rem buf bs bc).2.2 ∧
    bc ≤ (readLoop fuel rem buf bs bc).2.2 ∧
    (readLoop fuel rem buf bs bc).1.take (readLoop fuel rem buf bs bc).2.1 =
      buf.take bs ++ rem := by
  intro fuel
  induction fuel with
  | zero =>
    intro rem buf bs bc _ _ h3
    exact absurd h3 (by omega)
  | succ n ih =>
    intro rem buf bs bc hbs hlen hfuel
    simp only [readLoop]
    by_cases hshort : rem.length < bc - bs
    · rw [if_pos hshort]
      have hmin : min (bc - bs) rem.length = rem.length := Nat.min_eq_right (le_of_lt hshort)
      rw [hmin, List.take_length]
      dsimp only
      refine ⟨rfl, by omega, ?_, le_refl bc, ?_⟩
      · rw [writeAt_length buf bs rem (by omega)]
        exact hlen
      · exact writeAt_take buf bs rem (by omega)
    · rw [if_neg hshort]
      have hreq : bc - bs ≤ rem.length := le_of_not_lt hshort
      have hmin : min (bc - bs) rem.length = bc - bs := Nat.min_eq_left hreq
      rw [hmin]
      have hxlen : (rem.take (bc - bs)).length = bc - bs := by
        simp only [List.length_take]
        omega
      have hb1len : (writeAt buf bs (rem.take (bc - bs))).length = bc := by
        rw [writeAt_length buf bs (rem.take (bc - bs)) (by omega)]
        exact hlen
      have hrlen : (resizeTo (writeAt buf bs (rem.take (bc - bs))) (bc * 2)).length = bc * 2 :=
        resizeTo_length _ _ (by omega)
      obtain ⟨e1, e2, e3, e4, e5⟩ := ih (rem.drop (bc - bs))
        (resizeTo (writeAt buf bs (rem.take (bc - bs))) (bc * 2))
        (bs + (bc - bs)) (bc * 2) (by omega) hrlen
        (by simp only [List.length_drop]; omega)
      refine ⟨?_, e2, e3, le_trans (by omega) e4, ?_⟩
      · rw [e1, List.length_drop]
        omega
      · rw [e5]
        have hsz : bs + (bc - bs) = (writeAt buf bs (rem.take (bc - bs))).length := by
          omega
        rw [hsz, resizeTo_take_self _ _ (by omega)]
        have hw : writeAt buf bs (rem.take (bc - bs)) =
            (writeAt buf bs (rem.take (bc - bs))).take (bs + (rem.take (bc - bs)).length) :=
          (List.take_of_length_le (by omega)).symm
        nth_rewrite 1 [hw]
        rw [writeAt_take buf bs (rem.take (bc - bs)) (by omega), List.append_assoc,
          List.take_append_drop]

theorem fillBuffer_none (fs : FileSystem) (fileName : String)
    (h : fs fileName = none) : fillBufferWithContentsOfFile fs fileName = none := by
  simp [fillBufferWithContentsOfFile, h]

theorem shebangStep (content T : List Char) :
    (if (content ++ nullChar :: T).getD 0 uninitByte = '#' ∧
        (content ++ nullChar :: T).getD 1 uninitByte = '!' then
       ((content ++ nullChar :: T).set 0 '/').set 1 '/'
     else content ++ nullChar :: T).take (content.length + 1) =
      (if content.take 2 = ['#', '!'] then '/' :: '/' :: (content.drop 2 ++ [nullChar])
       else content ++ [nullChar]) := by
  rcases content with _ | ⟨c0, ctail⟩
  · simp only [List.nil_append, List.getD_cons_zero, List.length_nil, List.take_nil,
      Nat.zero_add]
    rw [if_neg (fun hand => absurd hand.1 (by decide)), if_neg (by decide)]
    simp
  · rcases ctail with _ | ⟨c1, cs⟩
    · simp only [List.cons_append, List.nil_append, List.getD_cons_zero, List.getD_cons_succ,
        List.length_cons, List.length_nil, List.take_succ_cons, List.take_zero]
      rw [if_neg (fun hand => absurd hand.2 (by decide)), if_neg (by simp)]
      simp
    · simp only [List.cons_append, List.getD_cons_zero, List.getD_cons_succ, List.length_cons,
        List.take_succ_cons, List.take_zero, List.drop_succ_cons, List.drop_zero,
        List.cons.injEq, and_true]
      have harith : cs.length + 1 - cs.length = 1 := by omega
      by_cases hsb : c0 = '#' ∧ c1 = '!'
      · obtain ⟨h0, h1⟩ := hsb
        subst h0
        subst h1
        rw [if_pos ⟨rfl, rfl⟩, if_pos ⟨rfl, rfl⟩]
        simp only [List.set_cons_zero, List.set_cons_succ, List.take_succ_cons,
          List.take_append_eq_append_take, List.take_of_length_le (Nat.le_succ cs.length),
          harith]
        simp
      · rw [if_neg hsb, if_neg hsb]
        simp only [List.take_succ_cons, List.take_append_eq_append_take,
          List.take_of_length_le (Nat.le_succ cs.length), harith]
        simp

theorem fillBuffer_eq (fs : FileSystem) (fileName : String) (content : List Char)
    (h : fs fileName = some content) :
    fillBufferWithContentsOfFile fs fileName =
      some (if content.take 2 = ['#', '!'] then
              '/' :: '/' :: (content.drop 2 ++ [nullChar])
            else content ++ [nullChar]) := by
  have hinit : (resizeTo ([] : List Char) 1024).length = 1024 := resizeTo_length _ _ (by simp)
  obtain ⟨e1, e2, e3, e4, e5⟩ := readLoop_spec (content.length + 1) content
    (resizeTo [] 1024) 0 1024 (by omega) hinit (by omega)
  rw [Nat.zero_add] at e1
  rw [e1, List.take_zero, List.nil_append] at e5
  have hlt : content.length <
      (readLoop (content.length + 1) content (resizeTo [] 1024) 0 1024).1.length := by
    omega
  simp only [fillBufferWithContentsOfFile, h, e1]
  have hsplit : (readLoop (content.length + 1) content (resizeTo [] 1024) 0 1024).1.set
      content.length nullChar =
      content ++ nullChar ::
        (readLoop (content.length + 1) content (resizeTo [] 1024) 0 1024).1.drop
          (content.length + 1) := by
    rw [List.set_eq_take_append_cons_drop, if_pos hlt, e5]
  rw [hsplit, shebangStep]

theorem evaluate_clean (oracle : Nat → Option ExnInfo) (i : Nat) :
    evaluate oracle i ⟨none⟩ = (⟨oracle i⟩, oracle i) := by
  cases ho : oracle i <;> simp [evaluate, ho]

theorem DriverTrace.append_assoc (a b c : DriverTrace) :
    DriverTrace.append (DriverTrace.append a b) c =
      DriverTrace.append a (DriverTrace.append b c) := by
  simp [DriverTrace.append]

theorem outcomeLines_idx (dump : Bool) (i : Nat) (exn : Option ExnInfo) (line : OutLine)
    (h : line ∈ outcomeLines dump i exn) : line.idx = i := by
  cases exn with
  | none =>
    cases dump <;> simp [outcomeLines] at h
    subst h
    rfl
  | some e =>
    cases hst : e.stack <;> simp [outcomeLines, hst] at h
    · subst h
      rfl
    · rcases h with h | h <;> subst h <;> rfl

theorem runAux_output_ge (fs : FileSystem) (oracle : Nat → Option ExnInfo) (dump : Bool) :
    ∀ (l : List Script) (i : Nat) (b : Bool) (st : ExecState) (line : OutLine),
      line ∈ (runWithScriptsAux fs oracle dump l i b st).2.output → i ≤ line.idx := by
  intro l
  induction l with
  | nil =>
    intro i b st line hmem
    simp [runWithScriptsAux] at hmem
  | cons s rest ih =>
    intro i b st line hmem
    rw [runWithScriptsAux] at hmem
    split at hmem
    · simp at hmem
    · simp only [DriverTrace.append, List.mem_append] at hmem
      rcases hmem with hl | hr
      · have := outcomeLines_idx dump i _ line hl
        omega
      · have := ih (i + 1) _ _ line hr
        omega

theorem prefixTrace_evaluated (oracle : Nat → Option ExnInfo) (dump : Bool) :
    ∀ (l : List Script) (i : Nat),
      (prefixTrace oracle dump i l).evaluated = List.range' i l.length := by
  intro l
  induction l with
  | nil => intro i; simp [prefixTrace]
  | cons s rest ih =>
    intro i
    simp [prefixTrace, DriverTrace.append, ih (i + 1), List.range'_succ]

theorem prefixTrace_loadAttempts_mem (oracle : Nat → Option ExnInfo) (dump : Bool) :
    ∀ (l : List Script) (i j : Nat),
      j ∈ (prefixTrace oracle dump i l).loadAttempts → i ≤ j ∧ j < i + l.length := by
  intro l
  induction l with
  | nil =>
    intro i j hmem
    simp [prefixTrace] at hmem
  | cons s rest ih =>
    intro i j hmem
    simp only [prefixTrace, DriverTrace.append, List.mem_append] at hmem
    rcases hmem with hl | hr
    · simp at hl
      obtain ⟨hfi, rfl⟩ := hl
      simp only [List.length_cons]
      omega
    · have := ih (i + 1) j hr
      simp only [List.length_cons]
      omega

theorem prefixTrace_outcomes_mem (oracle : Nat → Option ExnInfo) (dump : Bool) :
    ∀ (l : List Script) (i j : Nat), i ≤ j → j < i + l.length →
      (j, (oracle j).isNone) ∈ (prefixTrace oracle dump i l).outcomes := by
  intro l
  induction l with
  | nil =>
    intro i j h1 h2
    simp at h2
    omega
  | cons s rest ih =>
    intro i j h1 h2
    simp only [prefixTrace, DriverTrace.append, List.mem_append]
    by_cases hij : j = i
    · subst hij
      simp
    · right
      exact ih (i + 1) j (by omega) (by simp at h2; omega)

theorem prefixTrace_output_mem (oracle : Nat → Option ExnInfo) (dump : Bool) :
    ∀ (l : List Script) (i : Nat) (line : OutLine),
      line ∈ (prefixTrace oracle dump i l).output →
      ∃ j, i ≤ j ∧ j < i + l.length ∧ line ∈ outcomeLines dump j (oracle j) := by
  intro l
  induction l with
  | nil =>
    intro i line hmem
    simp [prefixTrace] at hmem
  | cons s rest ih =>
    intro i line hmem
    simp only [prefixTrace, DriverTrace.append, List.mem_append] at hmem
    rcases hmem with hl | hr
    · exact ⟨i, le_refl i, by simp, hl⟩
    · obtain ⟨j, hj1, hj2, hj3⟩ := ih (i + 1) line hr
      exact ⟨j, by omega, by simp only [List.length_cons]; omega, hj3⟩

theorem allNoThrow_iff (oracle : Nat → Option ExnInfo) :
    ∀ (n i : Nat), allNoThrow oracle i n = true ↔ ∀ k, k < n → oracle (i + k) = none := by
  intro n
  induction n with
  | zero =>
    intro i
    simp [allNoThrow]
  | succ m ih =>
    intro i
    simp only [allNoThrow, Bool.and_eq_true, Option.isNone_iff_eq_none, ih (i + 1)]
    constructor
    · rintro ⟨h0, hrest⟩ k hk
      cases k with
      | zero => simpa using h0
      | succ k2 =>
        have e : i + (k2 + 1) = i + 1 + k2 := by omega
        rw [e]
        exact hrest k2 (by omega)
    · intro hh
      refine ⟨by simpa using hh 0 (by omega), fun k hk => ?_⟩
      have e : i + 1 + k = i + (k + 1) := by omega
      rw [e]
      exact hh (k + 1) (by omega)

theorem runAux_append (fs : FileSystem) (oracle : Nat → Option ExnInfo) (dump : Bool) :
    ∀ (l1 l2 : List Script) (i : Nat) (b : Bool),
    (∀ j (hj : j < l1.length), scriptLoads fs (l1.get ⟨j, hj⟩) = true) →
    runWithScriptsAux fs oracle dump (l1 ++ l2) i b ⟨none⟩ =
      ((runWithScriptsAux fs oracle dump l2 (i + l1.length)
          (b && allNoThrow oracle i l1.length) ⟨none⟩).1,
       DriverTrace.append (prefixTrace oracle dump i l1)
         (runWithScriptsAux fs oracle dump l2 (i + l1.length)
            (b && allNoThrow oracle i l1.length) ⟨none⟩).2) := by
  intro l1
  induction l1 with
  | nil =>
    intro l2 i b h
    simp [allNoThrow, prefixTrace, DriverTrace.append]
  | cons s rest ih =>
    intro l2 i b h
    have hs : scriptLoads fs s = true := h 0 (by simp)
    have htail : ∀ j (hj : j < rest.length), scriptLoads fs (rest.get ⟨j, hj⟩) = true := by
      intro j hj
      have := h (j + 1) (by simp; omega)
      simpa using this
    have harith : i + (rest.length + 1) = i + 1 + rest.length := by omega
    simp only [List.cons_append, List.length_cons, allNoThrow, prefixTrace, harith]
    rw [runWithScriptsAux]
    have hload : (if s.isFile then fillBufferWithContentsOfFile fs s.argument
        else some s.argument.data).isSome = true := by
      cases hf : s.isFile
      · simp
      · rw [scriptLoads, hf] at hs
        simp only [Bool.not_true, Bool.false_or] at hs
        obtain ⟨c, hc⟩ := Option.isSome_iff_exists.mp hs
        rw [if_pos rfl, fillBuffer_eq fs s.argument c hc]
        rfl
    obtain ⟨src, hsrc⟩ := Option.isSome_iff_exists.mp hload
    rw [hsrc]
    simp only [evaluate_clean, clearException]
    rw [ih l2 (i + 1) (b && (oracle i).isNone) htail]
    rw [← Bool.and_assoc, DriverTrace.append_assoc]

theorem runAux_abort (fs : FileSystem) (oracle : Nat → Option ExnInfo) (dump : Bool)
    (l : List Script) (k i : Nat) (b : Bool) (s : Script)
    (hget : l.get? k = some s) (hfile : s.isFile = true) (hmiss : fs s.argument = none)
    (hbefore : ∀ j, j < k → loadFailsAt fs l j = false) :
    runWithScriptsAux fs oracle dump l i b ⟨none⟩ =
      (false, DriverTrace.append (prefixTrace oracle dump i (l.take k))
        ⟨[], [i + k], [], []⟩) := by
  have hk : k < l.length := by
    by_contra hcon
    rw [List.get?_eq_none.mpr (by omega)] at hget
    exact absurd hget (by simp)
  have hkl : (l.take k).length = k := by
    simp only [List.length_take]
    omega
  have hloads : ∀ j (hj : j < (l.take k).length), scriptLoads fs ((l.take k).get ⟨j, hj⟩) = true := by
    intro j hj
    have hjk : j < k := by omega
    have hjl : j < l.length := by omega
    have hb := hbefore j hjk
    rw [loadFailsAt, List.get?_eq_getElem?, List.getElem?_eq_getElem hjl] at hb
    simp only at hb
    have hg : (l.take k).get ⟨j, hj⟩ = l.get ⟨j, hjl⟩ := by
      simp only [List.get_eq_getElem]
      exact (List.getElem_take' l hjl hjk).symm
    rw [hg]
    cases hsl : scriptLoads fs (l.get ⟨j, hjl⟩)
    · rw [List.get_eq_getElem] at hsl
      rw [hsl] at hb
      simp at hb
    · rfl
  have hgv : l[k] = s := by
    rw [List.get?_eq_getElem?, List.getElem?_eq_getElem hk] at hget
    exact Option.some.inj hget
  conv_lhs => rw [← List.take_append_drop k l]
  rw [runAux_append fs oracle dump (l.take k) (l.drop k) i b hloads]
  rw [List.drop_eq_getElem_cons hk, hgv, hkl]
  rw [runWithScriptsAux, if_pos hfile, fillBuffer_none fs s.argument hmiss]

theorem runWithScripts_success_char (fs : FileSystem) (oracle : Nat → Option ExnInfo)
    (scripts : List Script) (dump : Bool) :
    (runWithScripts fs oracle scripts dump).1 = true ↔
      ∀ i (h : i < scripts.length),
        scriptLoads fs (scripts.get ⟨i, h⟩) = true ∧ oracle i = none := by
  by_cases hex : ∃ j, loadFailsAt fs scripts j = true
  · obtain ⟨j0, hj0⟩ := hex
    have hexn : ∃ j, loadFailsAt fs scripts j = true := ⟨j0, hj0⟩
    set k := Nat.find hexn with hkdef
    have hkfail : loadFailsAt fs scripts k = true := Nat.find_spec hexn
    have hkmin : ∀ j, j < k → loadFailsAt fs scripts j = false := by
      intro j hj
      have := Nat.find_min hexn hj
      simpa using this
    rw [loadFailsAt] at hkfail
    rcases hgk : scripts.get? k with _ | s
    · rw [hgk] at hkfail
      simp at hkfail
    · rw [hgk] at hkfail
      simp only [Bool.not_eq_true'] at hkfail
      have hkl : k < scripts.length := by
        by_contra hcon
        rw [List.get?_eq_none.mpr (by omega)] at hgk
        exact absurd hgk (by simp)
      have hfile : s.isFile = true := by
        rw [scriptLoads] at hkfail
        cases hf : s.isFile
        · rw [hf] at hkfail
          simp at hkfail
        · rfl
      have hmiss : fs s.argument = none := by
        rw [scriptLoads, hfile] at hkfail
        simp only [Bool.not_true, Bool.false_or] at hkfail
        cases hfs : fs s.argument
        · rfl
        · rw [hfs] at hkfail
          simp at hkfail
      rw [runWithScripts, runAux_abort fs oracle dump scripts k 0 true s hgk hfile hmiss hkmin]
      constructor
      · intro hfalse
        exact absurd hfalse (by simp)
      · intro hall
        have := (hall k hkl).1
        have hgv : scripts.get ⟨k, hkl⟩ = s := by
          rw [List.get?_eq_get hkl] at hgk
          exact Option.some.inj hgk
        rw [hgv, scriptLoads, hfile, hmiss] at this
        simp at this
  · push_neg at hex
    have hloads : ∀ j (hj : j < scripts.length), scriptLoads fs (scripts.get ⟨j, hj⟩) = true := by
      intro j hj
      have := hex j
      rw [loadFailsAt, List.get?_eq_get hj] at this
      simp only [Bool.not_eq_true] at this
      cases hsl : scriptLoads fs (scripts.get ⟨j, hj⟩)
      · rw [hsl] at this
        simp at this
      · rfl
    have hrw := runAux_append fs oracle dump scripts [] 0 true hloads
    rw [List.append_nil] at hrw
    rw [runWithScripts, hrw]
    simp only [runWithScriptsAux, Bool.true_and]
    rw [allNoThrow_iff oracle scripts.length 0]
    constructor
    · intro hall i hi
      refine ⟨hloads i hi, ?_⟩
      have := hall i hi
      simpa using this
    · intro hall k hk
      have := (hall k hk).2
      simpa using this

theorem scriptLoads_false_iff (fs : FileSystem) (s : Script) :
    scriptLoads fs s = false ↔ (s.isFile = true ∧ fs s.argument = none) := by
  cases hf : s.isFile <;> cases hfs : fs s.argument <;> simp [scriptLoads, hf, hfs]

theorem loadFailsAt_false_elim (fs : FileSystem) (l : List Script) (j : Nat)
    (hj : j < l.length) (h : loadFailsAt fs l j = false) :
    scriptLoads fs (l.get ⟨j, hj⟩) = true := by
  rw [loadFailsAt, List.get?_eq_get hj] at h
  simp only at h
  cases hsl : scriptLoads fs (l.get ⟨j, hj⟩)
  · rw [hsl] at h
    simp at h
  · rfl

/-- Claim C1: for every list of scripts, runWithScripts returns false if
and only if at least one script either failed to load from its file (in
which case the whole run aborts) or raised an evaluation exception;
equivalently it returns true iff every script evaluated without
exception. -/
theorem c1_runWithScripts_false_iff (fs : FileSystem) (oracle : Nat → Option ExnInfo)
    (scripts : List Script) (dump : Bool) :
    (runWithScripts fs oracle scripts dump).1 = false ↔
      ∃ i, ∃ h : i < scripts.length,
        ((scripts.get ⟨i, h⟩).isFile = true ∧ fs (scripts.get ⟨i, h⟩).argument = none) ∨
          oracle i ≠ none := by
  have hchar := runWithScripts_success_char fs oracle scripts dump
  constructor
  · intro hfalse
    have hnot : ¬ ∀ i (h : i < scripts.length),
        scriptLoads fs (scripts.get ⟨i, h⟩) = true ∧ oracle i = none := by
      intro hall
      have htrue := hchar.mpr hall
      rw [htrue] at hfalse
      exact absurd hfalse (by simp)
    push_neg at hnot
    obtain ⟨i, h, hni⟩ := hnot
    refine ⟨i, h, ?_⟩
    by_cases ho : oracle i = none
    · left
      have hl : scriptLoads fs (scripts.get ⟨i, h⟩) = false := by
        cases hsl : scriptLoads fs (scripts.get ⟨i, h⟩)
        · rfl
        · exact absurd ho (hni hsl)
      exact (scriptLoads_false_iff fs _).mp hl
    · right
      exact ho
  · rintro ⟨i, h, hcase⟩
    cases hsucc : (runWithScripts fs oracle scripts dump).1
    · rfl
    · exfalso
      obtain ⟨hl, ho⟩ := hchar.mp hsucc i h
      rcases hcase with ⟨hfi, hmiss⟩ | hthrow
      · rw [(scriptLoads_false_iff fs _).mpr ⟨hfi, hmiss⟩] at hl
        exact absurd hl (by simp)
      · exact hthrow ho

/-- Claim C2: when the driver reaches a file-backed script whose file
cannot be loaded (every earlier script loads), it aborts immediately
with overall failure: exactly the scripts before the failing one were
evaluated, the failing script's load was attempted, and no load is
attempted past it. -/
theorem c2_fail_fast (fs : FileSystem) (oracle : Nat → Option ExnInfo) (dump : Bool)
    (scripts : List Script) (k : Nat) (s : Script)
    (hget : scripts.get? k = some s)
    (hfile : s.isFile = true)
    (hmiss : fs s.argument = none)
    (hbefore : ∀ j, j < k → loadFailsAt fs scripts j = false) :
    (runWithScripts fs oracle scripts dump).1 = false ∧
    (runWithScripts fs oracle scripts dump).2.evaluated = List.range k ∧
    k ∈ (runWithScripts fs oracle scripts dump).2.loadAttempts ∧
    (∀ j, j ∈ (runWithScripts fs oracle scripts dump).2.loadAttempts → j ≤ k) := by
  have hk : k < scripts.length := by
    by_contra hcon
    rw [List.get?_eq_none.mpr (by omega)] at hget
    exact absurd hget (by simp)
  have hkl : (scripts.take k).length = k := by
    simp only [List.length_take]
    omega
  rw [runWithScripts, runAux_abort fs oracle dump scripts k 0 true s hget hfile hmiss hbefore]
  refine ⟨rfl, ?_, ?_, ?_⟩
  · simp only [DriverTrace.append, prefixTrace_evaluated, List.append_nil, hkl,
      Nat.zero_add, List.range_eq_range']
  · simp [DriverTrace.append]
  · intro j hmem
    simp only [DriverTrace.append, List.mem_append] at hmem
    rcases hmem with hl | hr
    · have := prefixTrace_loadAttempts_mem oracle dump (scripts.take k) 0 j hl
      omega
    · simp at hr
      omega

/-- Witness for claim C2 at a concrete input: with a.js readable and
missing.js unopenable, the three-file batch fails. -/
theorem c2_fail_fast_witness : (runWithScripts fsExample oracleNone scriptsABC false).1 = false :=
  (c2_fail_fast fsExample oracleNone false scriptsABC 1 ⟨true, "missing.js"⟩
    (by decide) (by decide) (by decide) (by decide)).1

/-- Claim C3: pending-exception state does not leak across scripts in
the batch driver.  When script i throws and script i+1 does not (and
all scripts up to i+1 load), script i+1 is reported successful: its
outcome is success and no Exception line is printed for it, while
script i's own outcome is failure.  This holds because the driver
clears the pending-exception state on the evaluation context at the end
of every iteration. -/
theorem c3_no_exception_leak (fs : FileSystem) (oracle : Nat → Option ExnInfo) (dump : Bool)
    (scripts : List Script) (i : Nat)
    (hlen : i + 1 < scripts.length)
    (hA : oracle i ≠ none)
    (hB : oracle (i + 1) = none)
    (hload : ∀ j, j ≤ i + 1 → loadFailsAt fs scripts j = false) :
    (i + 1, true) ∈ (runWithScripts fs oracle scripts dump).2.outcomes ∧
    (i, false) ∈ (runWithScripts fs oracle scripts dump).2.outcomes ∧
    (∀ msg, OutLine.exceptionLine (i + 1) msg ∉ (runWithScripts fs oracle scripts dump).2.output) := by
  have hkl : (scripts.take (i + 2)).length = i + 2 := by
    simp only [List.length_take]
    omega
  have hloads : ∀ j (hj : j < (scripts.take (i + 2)).length),
      scriptLoads fs ((scripts.take (i + 2)).get ⟨j, hj⟩) = true := by
    intro j hj
    have hjk : j < i + 2 := by omega
    have hjl : j < scripts.length := by omega
    have hg : (scripts.take (i + 2)).get ⟨j, hj⟩ = scripts.get ⟨j, hjl⟩ := by
      simp only [List.get_eq_getElem]
      exact (List.getElem_take' scripts hjl hjk).symm
    rw [hg]
    exact loadFailsAt_false_elim fs scripts j hjl (hload j (by omega))
  have hrw := runAux_append fs oracle dump (scripts.take (i + 2)) (scripts.drop (i + 2))
    0 true hloads
  rw [List.take_append_drop] at hrw
  rw [runWithScripts, hrw]
  have hiB : (oracle (i + 1)).isNone = true := by
    rw [hB]
    rfl
  have hiA : (oracle i).isNone = false := by
    cases ho : oracle i
    · exact absurd ho hA
    · rfl
  refine ⟨?_, ?_, ?_⟩
  · have hmem := prefixTrace_outcomes_mem oracle dump (scripts.take (i + 2)) 0 (i + 1)
      (by omega) (by omega)
    rw [hiB] at hmem
    simp only [DriverTrace.append, List.mem_append]
    exact Or.inl hmem
  · have hmem := prefixTrace_outcomes_mem oracle dump (scripts.take (i + 2)) 0 i
      (by omega) (by omega)
    rw [hiA] at hmem
    simp only [DriverTrace.append, List.mem_append]
    exact Or.inl hmem
  · intro msg hmem
    simp only [DriverTrace.append, List.mem_append] at hmem
    rcases hmem with hl | hr
    · obtain ⟨j, hj0, hj2, hline⟩ := prefixTrace_output_mem oracle dump
        (scripts.take (i + 2)) 0 _ hl
      have hidx := outcomeLines_idx dump j (oracle j) _ hline
      have hji : j = i + 1 := by
        simp only [OutLine.idx] at hidx
        omega
      subst hji
      rw [hB] at hline
      cases dump <;> simp [outcomeLines] at hline
    · have := runAux_output_ge fs oracle dump (scripts.drop (i + 2))
        (0 + (scripts.take (i + 2)).length) _ _ _ hr
      simp only [OutLine.idx, hkl] at this
      omega

/-- Witness for claim C3 at a concrete input: script 0 throws, script 1
does not, and script 1's outcome is recorded as success. -/
theorem c3_no_exception_leak_witness :
    (1, true) ∈ (runWithScripts fsEmpty oracleBoom scriptsThrowOk false).2.outcomes :=
  (c3_no_exception_leak fsEmpty oracleBoom false scriptsThrowOk 0
    (by decide) (by decide) (by decide) (by decide)).1

/-- Claim C4: for every readable file, fillBufferWithContentsOfFile
returns a buffer whose first two bytes are two slashes with all
remaining bytes unchanged when the file's first two bytes are the
shebang, and otherwise a buffer byte-identical to the file contents
plus a trailing NUL terminator. -/
theorem c4_loader_shebang (fs : FileSystem) (fileName : String) (content : List Char)
    (h : fs fileName = some content) :
    fillBufferWithContentsOfFile fs fileName =
      some (if content.take 2 = ['#', '!'] then
              '/' :: '/' :: (content.drop 2 ++ [nullChar])
            else content ++ [nullChar]) :=
  fillBuffer_eq fs fileName content h

/-- Witness for claim C4 at a concrete input: the shebang file sh.js. -/
theorem c4_loader_shebang_witness :
    fillBufferWithContentsOfFile fsExample ("sh.js") =
      some (if (['#', '!', '\n', 'x'].take 2) = ['#', '!'] then
              '/' :: '/' :: (['#', '!', '\n', 'x'].drop 2 ++ [nullChar])
            else ['#', '!', '\n', 'x'] ++ [nullChar]) :=
  c4_loader_shebang fsExample ("sh.js") (['#', '!', '\n', 'x']) (by decide)

/-- Claim C5: every CommandLine produced by parseArguments (whether the
run proceeds or the --options path exits afterwards) with an empty
script list has its interactive flag forced true, regardless of whether
-i was given. -/
theorem c5_empty_scripts_interactive (vm : String → Bool) (args : List String)
    (cfg : CommandLine)
    (h : parseArguments vm args = ParseOutcome.proceed cfg ∨
         parseArguments vm args = ParseOutcome.optionsExit cfg)
    (hempty : cfg.m_scripts = []) :
    cfg.m_interactive = true := by
  rcases hp : parseLoop vm args initialCommandLine false false with _ | _ | ⟨c, nd, ne, tr⟩
  · simp only [parseArguments, hp] at h
    rcases h with h | h <;> exact absurd h (by simp)
  · simp only [parseArguments, hp] at h
    rcases h with h | h <;> exact absurd h (by simp)
  · simp only [parseArguments, hp] at h
    cases ne
    · rw [if_neg (by simp)] at h
      rcases h with h | h
      · rw [ParseOutcome.proceed.injEq] at h
        subst h
        by_cases hce : c.m_scripts.isEmpty
        · simp [hce]
        · rw [if_neg hce] at hempty
          simp only at hempty
          exact absurd (by rw [hempty]; rfl) hce
      · exact absurd h (by simp)
    · rw [if_pos rfl] at h
      rcases h with h | h
      · exact absurd h (by simp)
      · rw [ParseOutcome.optionsExit.injEq] at h
        subst h
        by_cases hce : c.m_scripts.isEmpty
        · simp [hce]
        · rw [if_neg hce] at hempty
          simp only at hempty
          exact absurd (by rw [hempty]; rfl) hce

/-- Witness for claim C5 at a concrete input: no arguments at all give
an interactive configuration. -/
theorem c5_empty_scripts_interactive_witness :
    ({ initialCommandLine with m_interactive := true } : CommandLine).m_interactive = true :=
  c5_empty_scripts_interactive vmReject []
    { initialCommandLine with m_interactive := true } (Or.inl (by decide)) (by decide)

/-- Claim C6: when a path cannot be opened, the run native raises a
catchable host error with the recognizable could-not-open-file message
on the caller (and does not terminate the process), and the same load
failure inside load and checkSyntax is converted into the same
catchable error thrown back into the evaluating script. -/
theorem c6_natives_missing_file (fs : FileSystem) (evalFresh : List Char → Option String)
    (evalInCaller : List Char → JSVal × Option String) (synCheck : List Char → Option String)
    (elapsedR elapsedC : Int) (fileName : String)
    (h : fs fileName = none) :
    functionRun fs evalFresh elapsedR fileName = NativeOutcome.thrownToCaller couldNotOpenMsg ∧
    functionLoad fs evalInCaller fileName = NativeOutcome.thrownToCaller couldNotOpenMsg ∧
    functionCheckSyntax fs synCheck elapsedC fileName =
      NativeOutcome.thrownToCaller couldNotOpenMsg ∧
    couldNotOpenMsg = "Could not open file." ∧
    (∀ c, functionRun fs evalFresh elapsedR fileName ≠ NativeOutcome.exitProcess c) := by
  have hf := fillBuffer_none fs fileName h
  refine ⟨?_, ?_, ?_, rfl, ?_⟩
  · simp [functionRun, hf]
  · simp [functionLoad, hf]
  · simp [functionCheckSyntax, hf]
  · intro c
    simp [functionRun, hf]

/-- Witness for claim C6 at a concrete input: running a missing file
throws the could-not-open-file host error. -/
theorem c6_natives_missing_file_witness :
    functionRun fsEmpty evalFreshNone 0 ("missing.js") =
      NativeOutcome.thrownToCaller couldNotOpenMsg :=
  (c6_natives_missing_file fsEmpty evalFreshNone evalCallerOk synValid 0 0
    ("missing.js") (by decide)).1

/-- Claim C7: a double-dash token that is none of the recognized flags
and is rejected by the engine's option system is not a parse error: the
loop appends it to the script list as a file-backed script and
continues with the remaining tokens unchanged. -/
theorem c7_unknown_long_option (vm : String → Bool) (t : String) (rest : List String)
    (cfg : CommandLine) (nd ne : Bool)
    (hpre : t.take 2 = "--")
    (h1 : t ≠ "--") (h2 : t ≠ "--help") (h3 : t ≠ "--options") (h4 : t ≠ "--dumpOptions")
    (hvm : vm (t.drop 2) = false) :
    parseLoop vm (t :: rest) cfg nd ne =
      parseLoop vm rest { cfg with m_scripts := cfg.m_scripts ++ [⟨true, t⟩] } nd ne := by
  have hne : ∀ u : String, u.take 2 ≠ "--" → t ≠ u := by
    intro u hu he
    rw [he] at hpre
    exact hu hpre
  rw [parseLoop.eq_def]
  dsimp only
  rw [if_neg (hne ("-f") (by decide)), if_neg (hne ("-e") (by decide)),
    if_neg (hne ("-i") (by decide)), if_neg (hne ("-d") (by decide)),
    if_neg (hne ("-p") (by decide)), if_neg (hne ("-s") (by decide)),
    if_neg (hne ("-x") (by decide)), if_neg h1,
    if_neg (not_or.mpr ⟨hne ("-h") (by decide), h2⟩), if_neg h3, if_neg h4,
    if_neg (by rw [hvm]; simp)]

/-- Witness for claim C7 at a concrete input: an unknown long option
with no other tokens degrades to a file-backed script. -/
theorem c7_unknown_long_option_witness :
    parseLoop vmReject ["--totallyUnknown"] initialCommandLine false false =
      parseLoop vmReject []
        { initialCommandLine with
          m_scripts := initialCommandLine.m_scripts ++ [⟨true, "--totallyUnknown"⟩] }
        false false :=
  c7_unknown_long_option vmReject ("--totallyUnknown") [] initialCommandLine false false
    (by decide) (by decide) (by decide) (by decide) (by decide) (by decide)

/-- Claim C8: on a readable file the checkSyntax native validates
syntax without executing anything, and raises an exception if and only
if the syntax is invalid; when the syntax is valid it returns the
elapsed milliseconds. -/
theorem c8_checkSyntax_iff (fs : FileSystem) (synCheck : List Char → Option String)
    (elapsedMS : Int) (fileName : String) (buf : List Char)
    (h : fillBufferWithContentsOfFile fs fileName = some buf) :
    ((∃ m, functionCheckSyntax fs synCheck elapsedMS fileName =
        NativeOutcome.thrownToCaller m) ↔ synCheck (cString buf) ≠ none) ∧
    (functionCheckSyntax fs synCheck elapsedMS fileName =
        NativeOutcome.value (JSVal.number elapsedMS) ↔ synCheck (cString buf) = none) := by
  cases hs : synCheck (cString buf) <;>
    constructor <;> simp [functionCheckSyntax, h, hs]

/-- Witness for claim C8 at a concrete input: a readable, syntactically
valid file makes checkSyntax return the elapsed milliseconds. -/
theorem c8_checkSyntax_iff_witness :
    functionCheckSyntax fsExample synValid 7 ("ok.js") =
      NativeOutcome.value (JSVal.number 7) :=
  ((c8_checkSyntax_iff fsExample synValid 7 ("ok.js") (['1', nullChar])
      (by rw [fillBuffer_eq fsExample ("ok.js") (['1']) (by decide)]; decide)).2).mpr
    (by decide)

/-- Claim C9: for every run that reaches script execution the exit code
is 0 exactly when the batch driver succeeded (every script loads and
evaluates without exception) and 3 exactly when some script-evaluation
or file-load failure occurred; the help and --options parser paths exit
0 directly without evaluating any script. -/
theorem c9_exit_codes (fs : FileSystem) (oracle : Nat → Option ExnInfo) (vm : String → Bool)
    (args : List String) :
    (∀ cfg, parseArguments vm args = ParseOutcome.proceed cfg →
      (((jscmain fs oracle vm args).1 = 0 ↔
          ∀ i (h : i < cfg.m_scripts.length),
            scriptLoads fs (cfg.m_scripts.get ⟨i, h⟩) = true ∧ oracle i = none) ∧
        ((jscmain fs oracle vm args).1 = 3 ↔
          ¬ ∀ i (h : i < cfg.m_scripts.length),
            scriptLoads fs (cfg.m_scripts.get ⟨i, h⟩) = true ∧ oracle i = none))) ∧
    (parseArguments vm args = ParseOutcome.usageHelp → jscmain fs oracle vm args = (0, [])) ∧
    (∀ cfg, parseArguments vm args = ParseOutcome.optionsExit cfg →
      jscmain fs oracle vm args = (0, [])) := by
  refine ⟨?_, ?_, ?_⟩
  · intro cfg hp
    have hchar := runWithScripts_success_char fs oracle cfg.m_scripts cfg.m_dump
    simp only [jscmain, hp]
    cases hr : (runWithScripts fs oracle cfg.m_scripts cfg.m_dump).1
    · have hnot : ¬ ∀ i (h : i < cfg.m_scripts.length),
          scriptLoads fs (cfg.m_scripts.get ⟨i, h⟩) = true ∧ oracle i = none := by
        intro hall
        have := hchar.mpr hall
        rw [hr] at this
        exact absurd this (by simp)
      exact ⟨iff_of_false (by simp) hnot, iff_of_true (by simp) hnot⟩
    · have hall := hchar.mp hr
      exact ⟨iff_of_true (by simp) hall, iff_of_false (by simp) (not_not_intro hall)⟩
  · intro hp
    simp [jscmain, hp]
  · intro cfg hp
    simp [jscmain, hp]

/-- Witness for claim C9 at a concrete input: the help path exits 0
without evaluating any script. -/
theorem c9_exit_codes_witness :
    jscmain fsEmpty oracleNone vmReject ["--help"] = (0, []) :=
  (c9_exit_codes fsEmpty oracleNone vmReject ["--help"]).2.1 (by decide)

/-- Claim C10: after the read loop of fillBufferWithContentsOfFile the
number of bytes read is strictly less than the buffer's capacity (the
buffer is doubled whenever it becomes full), the buffer's size equals
its capacity and is at least the initial 1024, so the trailing NUL
store at index bufferSize and the shebang check of bytes 0 and 1 are
in-bounds accesses for every file, including an empty one. -/
theorem c10_read_loop_in_bounds (content : List Char) :
    (readLoop (content.length + 1) content (resizeTo [] 1024) 0 1024).2.1 = content.length ∧
    (readLoop (content.length + 1) content (resizeTo [] 1024) 0 1024).2.1 <
      (readLoop (content.length + 1) content (resizeTo [] 1024) 0 1024).2.2 ∧
    (readLoop (content.length + 1) content (resizeTo [] 1024) 0 1024).1.length =
      (readLoop (content.length + 1) content (resizeTo [] 1024) 0 1024).2.2 ∧
    1024 ≤ (readLoop (content.length + 1) content (resizeTo [] 1024) 0 1024).2.2 ∧
    (readLoop (content.length + 1) content (resizeTo [] 1024) 0 1024).2.1 <
      (readLoop (content.length + 1) content (resizeTo [] 1024) 0 1024).1.length ∧
    0 < (readLoop (content.length + 1) content (resizeTo [] 1024) 0 1024).1.length ∧
    1 < (readLoop (content.length + 1) content (resizeTo [] 1024) 0 1024).1.length := by
  obtain ⟨e1, e2, e3, e4, e5⟩ := readLoop_spec (content.length + 1) content (resizeTo [] 1024)
    0 1024 (by omega) (resizeTo_length _ _ (by simp)) (by omega)
  exact ⟨by omega, e2, e3, e4, by omega, by omega, by omega⟩

end Jsc
